import Mathlib

/-!
# Verification of the distributed heterogeneous-GNN training driver

Shallow embedding of `src/igb/train_multi_hetero.py` — the `run` worker
function: the per-epoch training loop, the leader-only evaluation and
checkpoint policy (lines 136–163), the learning-rate schedule step
(line 165), and the final test evaluation (lines 167–181).

Numeric quantities (losses, accuracies, memory samples, wall-clock
durations) are rationals.  Tensor computations (the model forward pass,
sampling) are abstracted as per-batch data: each train batch carries its
labels, its per-sample class-score rows, its loss and its memory sample;
each evaluation batch carries labels and class-score rows.  The control
flow — which branch runs on which worker and epoch, what is accumulated,
what is logged, when a checkpoint is written — is translated line by
line from the source.

The `use_ddp` seed partitioning and the shuffling of the train
dataloader live in the external graph library (DGL); they are modelled
from the spec where a claim needs them (see `workerSeeds`,
`fisherYates`).
-/

namespace IGB

/-- Configuration record: the fields of `args` the `run` function reads
in its training loop (source lines 98–165 and the argparse defaults). -/
structure Args where
  epochs : Nat
  log_every : Nat
  model_save : Bool
  sched_stepsize : Nat
  sched_gamma : ℚ
  learning_rate : ℚ
  batch_size : Nat
deriving Repr, DecidableEq

/-- One train minibatch, abstracted: the batch labels
(`blocks[-1].dstdata['label'][category]`), the per-sample rows of class
scores produced by `model(blocks, batch_inputs)`, the scalar loss and
the peak-memory sample taken for this batch (lines 112–130). -/
structure TrainBatch where
  labels : List Nat
  preds : List (List ℚ)
  loss : ℚ
  mem : ℚ
deriving Repr, DecidableEq

/-- One evaluation minibatch (validation or test pipeline): labels and
per-sample class-score rows (lines 141–145, 172–176). -/
structure EvalBatch where
  labels : List Nat
  preds : List (List ℚ)
deriving Repr, DecidableEq

/-- The data one epoch of the loop consumes: the train pipeline's
batches for this worker, the validation pipeline's batches as drained
this epoch (shuffle=False, so traversal order is the fixed seed order),
and the epoch's wall-clock duration. -/
structure EpochData where
  train : List TrainBatch
  val : List EvalBatch
  duration : ℚ
deriving Repr, DecidableEq

/-- Whole-run input for one worker: per-epoch data, the test pipeline's
batches, and the total wall-clock time printed at the end. -/
structure RunInput where
  epochData : Nat → EpochData
  test : List EvalBatch
  totalTime : ℚ

/-- `numpy.argmax` over one row of class scores: index of the first
maximal entry (`batch_pred.argmax(1)`).  `bi`/`bv` are the best index
and value so far, `i` the index of the head of the remaining list. -/
def argmaxFrom (bi : Nat) (bv : ℚ) (i : Nat) : List ℚ → Nat
  | [] => bi
  | x :: t => if bv < x then argmaxFrom i x (i + 1) t else argmaxFrom bi bv (i + 1) t

/-- `numpy.argmax` of a row (0 on an empty row, as a total function). -/
def argmaxIdx : List ℚ → Nat
  | [] => 0
  | x :: t => argmaxFrom 0 x 1 t

/-- Number of positions where the two label sequences agree
(the numerator of `sklearn.metrics.accuracy_score`). -/
def matchCount : List Nat → List Nat → Nat
  | [], _ => 0
  | _, [] => 0
  | a :: as, b :: bs => (if a = b then 1 else 0) + matchCount as bs

/-- `sklearn.metrics.accuracy_score(y_true, y_pred)`: fraction of
positions where prediction equals label. -/
def accuracy_score (y_true y_pred : List Nat) : ℚ :=
  (matchCount y_true y_pred : ℚ) / (y_true.length : ℚ)

/-- Per-batch train accuracy appended to `accs` at lines 124–125:
`accuracy_score(labels, preds.argmax(1)) * 100`. -/
def batchAcc (b : TrainBatch) : ℚ :=
  accuracy_score b.labels (b.preds.map argmaxIdx) * 100

/-- `sum(l) / len(l)` as Python computes it: a `ZeroDivisionError` on an
empty list is modelled as `none` (lines 132–133). -/
def pyMean (l : List ℚ) : Option ℚ :=
  if l.isEmpty then none else some (l.sum / (l.length : ℚ))

/-- Draining an evaluation pipeline (lines 138–148 and 169–179): run
every batch, append predicted labels and true labels in traversal
order, concatenate, and score.  `np.concatenate` on an empty list of
arrays raises, modelled as `none`. -/
def drainEval (batches : List EvalBatch) : Option ℚ :=
  if batches.isEmpty then none
  else
    some (accuracy_score ((batches.map (fun b => b.labels)).flatten)
      ((batches.map (fun b => b.preds.map argmaxIdx)).flatten) * 100)

/-- Observable actions of one worker: a checkpoint write
(`torch.save`, line 152), the validation log line (lines 154–163) with
its six printed quantities, and the final test report (lines 180–181). -/
inductive Event where
  | checkpoint : Event
  | logLine (epoch : Nat) (loss trainAcc valAcc dur mem : ℚ) : Event
  | testLine (acc total : ℚ) : Event
deriving Repr, DecidableEq

/-- `torch.optim.lr_scheduler.StepLR` state: (number of steps taken so
far, current learning rate).  Modelled from the spec: "multiplies
current rate by the decay factor once every fixed number of epochs"
(StepLR itself lives in torch, outside this repository). -/
def schedStep (stepsize : Nat) (gamma : ℚ) (st : Nat × ℚ) : Nat × ℚ :=
  ((st.1 + 1), if (st.1 + 1) % stepsize = 0 then st.2 * gamma else st.2)

/-- Lines 149–152: compare the drained validation accuracy against the
best-accuracy tracker; on strict improvement the tracker takes the new
value and, when `model_save` is set, a checkpoint is written.  Returns
the new tracker value and the checkpoint events emitted. -/
def evalUpdate (model_save : Bool) (best val_acc : ℚ) : ℚ × List Event :=
  if best < val_acc then
    (val_acc, if model_save then [Event.checkpoint] else [])
  else (best, [])

/-- Lines 136–163: the leader-only evaluation block.  Only on worker 0
and only when `epoch % log_every == 0` is the validation pipeline
drained; the tracker is then updated per `evalUpdate` and the log line
printed.  On all other workers and epochs nothing happens.  `none`
models the `np.concatenate` failure on an empty validation drain. -/
def leaderEval (args : Args) (proc_id : Nat) (best : ℚ) (epoch : Nat)
    (val : List EvalBatch) (epoch_loss epoch_acc dur epoch_mem : ℚ) :
    Option (ℚ × List Event) :=
  if proc_id = 0 ∧ epoch % args.log_every = 0 then
    match drainEval val with
    | none => none
    | some val_acc =>
      let updated := evalUpdate args.model_save best val_acc
      some (updated.1,
        updated.2 ++ [Event.logLine epoch epoch_loss epoch_acc val_acc dur epoch_mem])
  else some (best, [])

/-- Loop state threaded through the epoch loop: the best-accuracy
tracker (line 101, initialised to 0), the scheduler state, and the
trace of events each epoch produced, most recent last. -/
structure LoopState where
  best : ℚ
  sched : Nat × ℚ
  trace : List (Nat × List Event)
deriving Repr, DecidableEq

/-- Initial loop state at line 101: `best_accuracy = 0`, scheduler at
zero steps with the configured initial learning rate, empty trace. -/
def initState (args : Args) : LoopState :=
  { best := 0, sched := (0, args.learning_rate), trace := [] }

/-- The body of one `for epoch in range(args.epochs)` iteration
(lines 103–165) for worker `proc_id`.  Returns `none` where the Python
raises: an empty train shard (division by zero at lines 132–133) or an
empty validation drain (line 146–147).  Otherwise: the train phase sums
the loss and averages per-batch accuracy and memory; on the leader, on
epochs with `epoch % log_every == 0`, validation is drained, the best
tracker conditionally updated, a checkpoint conditionally saved and the
log line printed; finally `sched.step()` runs on every worker. -/
def epochBody (args : Args) (proc_id : Nat) (inp : RunInput) (st : LoopState)
    (epoch : Nat) : Option LoopState :=
  let d := inp.epochData epoch
  match pyMean (d.train.map batchAcc), pyMean (d.train.map (fun b => b.mem)) with
  | some epoch_acc, some epoch_mem =>
    let epoch_loss := (d.train.map (fun b => b.loss)).sum
    match leaderEval args proc_id st.best epoch d.val epoch_loss epoch_acc d.duration
        epoch_mem with
    | none => none
    | some (best2, evs) =>
      some { best := best2,
             sched := schedStep args.sched_stepsize args.sched_gamma st.sched,
             trace := st.trace ++ [(epoch, evs)] }
  | _, _ => none

/-- Option-sequencing of one epoch: a crash in an earlier epoch aborts
the run. -/
def epochStep (args : Args) (proc_id : Nat) (inp : RunInput)
    (st : Option LoopState) (epoch : Nat) : Option LoopState :=
  match st with
  | none => none
  | some s => epochBody args proc_id inp s epoch

/-- The epoch loop after `n` epochs: `for epoch in range(n)` folding the
epoch body over the loop state. -/
def runLoop (args : Args) (proc_id : Nat) (inp : RunInput) (n : Nat) : Option LoopState :=
  (List.range n).foldl (epochStep args proc_id inp) (some (initState args))

/-- Result of a whole worker run: final best tracker, number of
scheduler steps taken, final learning rate, the per-epoch event trace
and the events of the final test phase. -/
structure RunResult where
  best : ℚ
  schedSteps : Nat
  lr : ℚ
  trace : List (Nat × List Event)
  finalEvents : List Event
deriving Repr, DecidableEq

/-- The final test phase (lines 167–181): leader only; drain the test
pipeline with the same concatenate-and-score procedure and print the
test accuracy and total elapsed time.  Non-leaders do nothing. -/
def finalPhase (proc_id : Nat) (inp : RunInput) : Option (List Event) :=
  if proc_id = 0 then
    match drainEval inp.test with
    | none => none
    | some test_acc => some [Event.testLine test_acc inp.totalTime]
  else some []

/-- The whole `run` worker function: the epoch loop over
`range(args.epochs)`, then the final test evaluation. -/
def run (args : Args) (proc_id : Nat) (inp : RunInput) : Option RunResult :=
  match runLoop args proc_id inp args.epochs with
  | none => none
  | some st =>
    match finalPhase proc_id inp with
    | none => none
    | some fevs =>
      some { best := st.best, schedSteps := st.sched.1, lr := st.sched.2,
             trace := st.trace, finalEvents := fevs }

/-! ## Seed partition and minibatch pipelines

The dataloaders at source lines 45–61 hand the seed sets to
`dgl.dataloading.DataLoader(..., use_ddp=True, batch_size=bs,
shuffle=…, drop_last=False)`.  The partitioning, batching and shuffling
happen inside DGL, outside this repository; they are modelled from the
spec here. -/

/-- Modelled from the spec: the `use_ddp` partitioning contract —
"partitioned deterministically and disjointly across workers".  Worker
`i` of `N` receives the seeds sitting at positions congruent to `i`
modulo `N` of the seed sequence. -/
def workerSeeds (N i : Nat) (seeds : List α) : List α :=
  ((seeds.enum).filter (fun p => p.1 % N = i)).map Prod.snd

/-- Modelled from the spec: "Batches that would be smaller than
`batch_size` at sequence end are kept, not dropped" (`drop_last=False`):
cut a sequence into consecutive batches of `bs`, the last possibly
shorter.  A zero batch size is rejected upstream; totalised as a single
batch. -/
def chunksOfAux (fuel bs : Nat) : List α → List (List α) :=
  match fuel with
  | 0 => fun l => match l with
    | [] => []
    | l => [l]
  | fuel + 1 => fun l => match l with
    | [] => []
    | a :: t =>
      if bs = 0 then [a :: t]
      else (a :: t).take bs :: chunksOfAux fuel bs ((a :: t).drop bs)

/-- Entry point: the fuel `l.length` always suffices, one element being
consumed per batch at least. -/
def chunksOf (bs : Nat) (l : List α) : List (List α) :=
  chunksOfAux l.length bs l

/-- A linear congruential pseudo-random step (modelled pseudo-random
source for the spec's per-epoch reshuffle). -/
def lcgNext (s : Nat) : Nat := (1103515245 * s + 12345) % 2 ^ 31

/-- Modelled from the spec: "Train pipeline reshuffles seed order every
epoch … with fixed seed given yields reproducible ordering": a
Fisher–Yates shuffle driven by the deterministic `lcgNext` stream. -/
def fisherYatesAux (fuel : Nat) (s : Nat) : List α → List α :=
  match fuel with
  | 0 => fun _ => []
  | fuel + 1 => fun l => match l with
    | [] => []
    | a :: t =>
      (a :: t).getD (s % (a :: t).length) a ::
        fisherYatesAux fuel (lcgNext s) ((a :: t).eraseIdx (s % (a :: t).length))

/-- Entry point: the fuel `l.length` is exact, one element being drawn
per step. -/
def fisherYates (s : Nat) (l : List α) : List α :=
  fisherYatesAux l.length s l

/-- The per-epoch seed of the train pipeline's reshuffle: the RNG state
reached at epoch `e` from the fixed global seed. -/
def epochSeed (seed e : Nat) : Nat := lcgNext (seed + e)

/-- Modelled from the spec: the train pipeline's traversal at a given
epoch — this worker's seed shard, reshuffled for the epoch, cut into
batches (shuffle=True, drop_last=False). -/
def trainPipeline (seed bs : Nat) (shard : List α) (epoch : Nat) : List (List α) :=
  chunksOf bs (fisherYates (epochSeed seed epoch) shard)

/-- Modelled from the spec: a validation/test traversal — the shard cut
into batches in fixed seed order; the traversal index is ignored
(shuffle=False, so every traversal is the same). -/
def evalPipeline (bs : Nat) (shard : List α) (_traversal : Nat) : List (List α) :=
  chunksOf bs shard

/-! ## Trace observers and concrete run inputs -/

/-- Is this event the validation log line? -/
def isLogLine : Event → Bool
  | .logLine _ _ _ _ _ _ => true
  | .checkpoint => false
  | .testLine _ _ => false

/-- Is this event the final test report? -/
def isTestLine : Event → Bool
  | .testLine _ _ => true
  | .checkpoint => false
  | .logLine _ _ _ _ _ _ => false

/-- Is this event a checkpoint write? -/
def isCkpt : Event → Bool
  | .checkpoint => true
  | .logLine _ _ _ _ _ _ => false
  | .testLine _ _ => false

/-- The epochs of a trace on which a checkpoint was written. -/
def ckptEpochs (tr : List (Nat × List Event)) : List Nat :=
  (tr.filter (fun p => p.2.any isCkpt)).map Prod.fst

/-- Trace of a possibly-crashed run (empty when the run raised). -/
def runTrace (o : Option RunResult) : List (Nat × List Event) :=
  match o with
  | none => []
  | some r => r.trace

/-- An evaluation batch of `total` samples, all labelled 0, on which the
model scores `correct` of them right: `correct` rows argmax to 0 and
the rest argmax to 1, so its accuracy is `correct / total`. -/
def mkEvalBatch (total correct : Nat) : EvalBatch :=
  { labels := List.replicate total 0,
    preds := List.replicate correct [1, 0] ++ List.replicate (total - correct) [0, 1] }

/-- A train batch with the same label/score shape plus a loss and a
memory sample. -/
def mkTrainBatch (total correct : Nat) (loss mem : ℚ) : TrainBatch :=
  { labels := List.replicate total 0,
    preds := List.replicate correct [1, 0] ++ List.replicate (total - correct) [0, 1],
    loss := loss, mem := mem }

/-- Four evaluation epochs whose drained validation accuracies are the
spec's synthetic sequence 40, 55, 50, 70. -/
def synthValSeq : Nat → EvalBatch
  | 0 => mkEvalBatch 5 2
  | 1 => mkEvalBatch 20 11
  | 2 => mkEvalBatch 2 1
  | _ => mkEvalBatch 10 7

/-- Arguments for the synthetic checkpoint scenario: four epochs,
evaluation every epoch, checkpointing enabled. -/
def synthArgs : Args :=
  { epochs := 4, log_every := 1, model_save := true, sched_stepsize := 25,
    sched_gamma := 1 / 4, learning_rate := 1 / 100, batch_size := 10 }

/-- Run input realising the synthetic validation-accuracy sequence
[40, 55, 50, 70] across four evaluation epochs. -/
def synthInput : RunInput :=
  { epochData := fun e =>
      { train := [mkTrainBatch 4 2 1 0], val := [synthValSeq e], duration := 1 },
    test := [mkEvalBatch 4 1], totalTime := 9 }

/-- Log lines emitted over a whole (possibly crashed) run. -/
def logLineCount (o : Option RunResult) : Nat :=
  ((runTrace o).map (fun p => (p.2.filter isLogLine).length)).sum

/-- Test report lines emitted by the final phase. -/
def testLineCount (o : Option RunResult) : Nat :=
  match o with
  | none => 0
  | some r => (r.finalEvents.filter isTestLine).length

/-- The toy scenario's train minibatch total: 70 train seeds partitioned
over 2 workers, each worker's shard reshuffled and cut into batches of
10, batch counts summed over the workers. -/
def toyTrainBatchTotal : Nat :=
  ((List.range 2).map
    (fun i => (trainPipeline 0 10 (workerSeeds 2 i (List.range 70)) 0).length)).sum

/-- Toy-scenario arguments: 1 epoch, 2 workers, batch size 10, default
evaluation interval 5, no checkpointing. -/
def toyArgs : Args :=
  { epochs := 1, log_every := 5, model_save := false, sched_stepsize := 25,
    sched_gamma := 1 / 4, learning_rate := 1 / 100, batch_size := 10 }

/-- Toy-scenario run input for the leader: its 35-seed train shard as
4 batches (10+10+10+5), the 15-seed validation set as 2 batches (10+5)
and the 15-seed test set as 2 batches (10+5). -/
def toyInput : RunInput :=
  { epochData := fun _ =>
      { train := [mkTrainBatch 10 5 1 0, mkTrainBatch 10 6 1 0,
                  mkTrainBatch 10 4 1 0, mkTrainBatch 5 3 1 0],
        val := [mkEvalBatch 10 5, mkEvalBatch 5 2], duration := 1 },
    test := [mkEvalBatch 10 4, mkEvalBatch 5 3], totalTime := 3 }

/-! ## Structural lemmas about the epoch loop -/

theorem runLoop_zero (args : Args) (p : Nat) (inp : RunInput) :
    runLoop args p inp 0 = some (initState args) := rfl

theorem runLoop_succ (args : Args) (p : Nat) (inp : RunInput) (n : Nat) :
    runLoop args p inp (n + 1) = epochStep args p inp (runLoop args p inp n) n := by
  unfold runLoop
  rw [List.range_succ, List.foldl_append]
  rfl

theorem runLoop_succ_some (args : Args) (p : Nat) (inp : RunInput) (n : Nat)
    (s : LoopState) (h : runLoop args p inp (n + 1) = some s) :
    ∃ s0, runLoop args p inp n = some s0 ∧ epochBody args p inp s0 n = some s := by
  rw [runLoop_succ] at h
  cases h0 : runLoop args p inp n with
  | none => rw [h0] at h; exact absurd h (by simp [epochStep])
  | some s0 => rw [h0] at h; exact ⟨s0, rfl, h⟩

theorem epochBody_some (args : Args) (p : Nat) (inp : RunInput) (st : LoopState)
    (e : Nat) (s2 : LoopState) (h : epochBody args p inp st e = some s2) :
    ∃ ea em best2 evs,
      pyMean ((inp.epochData e).train.map batchAcc) = some ea ∧
      pyMean ((inp.epochData e).train.map (fun b => b.mem)) = some em ∧
      leaderEval args p st.best e (inp.epochData e).val
        (((inp.epochData e).train.map (fun b => b.loss)).sum) ea
        (inp.epochData e).duration em = some (best2, evs) ∧
      s2 = { best := best2,
             sched := schedStep args.sched_stepsize args.sched_gamma st.sched,
             trace := st.trace ++ [(e, evs)] } := by
  simp only [epochBody] at h
  split at h
  · rename_i ea em ha hm
    split at h
    · exact absurd h (by simp)
    · rename_i best2 evs hl
      exact ⟨ea, em, best2, evs, ha, hm, hl, (Option.some_inj.mp h).symm⟩
  · exact absurd h (by simp)

theorem leaderEval_not_run (args : Args) (p : Nat) (best : ℚ) (e : Nat)
    (val : List EvalBatch) (l a du m : ℚ) (h : ¬(p = 0 ∧ e % args.log_every = 0)) :
    leaderEval args p best e val l a du m = some (best, []) := by
  unfold leaderEval
  rw [if_neg h]

theorem leaderEval_run (args : Args) (best : ℚ) (e : Nat) (val : List EvalBatch)
    (l a du m : ℚ) (he : e % args.log_every = 0) (v : ℚ) (hv : drainEval val = some v) :
    leaderEval args 0 best e val l a du m =
      some ((evalUpdate args.model_save best v).1,
        (evalUpdate args.model_save best v).2 ++ [Event.logLine e l a v du m]) := by
  unfold leaderEval
  rw [if_pos ⟨rfl, he⟩, hv]

theorem leaderEval_some_inv (args : Args) (p : Nat) (best : ℚ) (e : Nat)
    (val : List EvalBatch) (l a du m : ℚ) (best2 : ℚ) (evs : List Event)
    (h : leaderEval args p best e val l a du m = some (best2, evs)) :
    (¬(p = 0 ∧ e % args.log_every = 0) ∧ best2 = best ∧ evs = []) ∨
    (p = 0 ∧ e % args.log_every = 0 ∧ ∃ v, drainEval val = some v ∧
      best2 = (evalUpdate args.model_save best v).1 ∧
      evs = (evalUpdate args.model_save best v).2 ++ [Event.logLine e l a v du m]) := by
  unfold leaderEval at h
  by_cases hc : p = 0 ∧ e % args.log_every = 0
  · rw [if_pos hc] at h
    cases hv : drainEval val with
    | none => rw [hv] at h; exact absurd h (by simp)
    | some v =>
      rw [hv] at h
      have h2 := Option.some_inj.mp h
      exact Or.inr ⟨hc.1, hc.2, v, rfl,
        (congrArg Prod.fst h2).symm, (congrArg Prod.snd h2).symm⟩
  · rw [if_neg hc] at h
    have h2 := Option.some_inj.mp h
    exact Or.inl ⟨hc, (congrArg Prod.fst h2).symm, (congrArg Prod.snd h2).symm⟩

theorem evalUpdate_best_le (ms : Bool) (b v : ℚ) : b ≤ (evalUpdate ms b v).1 := by
  unfold evalUpdate
  split
  · exact le_of_lt (by assumption)
  · exact le_refl b

theorem epochBody_best_le (args : Args) (p : Nat) (inp : RunInput) (st : LoopState)
    (e : Nat) (s2 : LoopState) (h : epochBody args p inp st e = some s2) :
    st.best ≤ s2.best := by
  obtain ⟨ea, em, best2, evs, _, _, hl, hs⟩ := epochBody_some args p inp st e s2 h
  rcases leaderEval_some_inv _ _ _ _ _ _ _ _ _ _ _ hl with ⟨_, hb, _⟩ | ⟨_, _, v, _, hb, _⟩
  · rw [hs, hb]
  · rw [hs, hb]; exact evalUpdate_best_le _ _ _

theorem runLoop_best_le_succ (args : Args) (p : Nat) (inp : RunInput) (n : Nat)
    (s1 s2 : LoopState) (h1 : runLoop args p inp n = some s1)
    (h2 : runLoop args p inp (n + 1) = some s2) : s1.best ≤ s2.best := by
  obtain ⟨s0, h0, hb⟩ := runLoop_succ_some args p inp n s2 h2
  rw [h0] at h1
  cases Option.some_inj.mp h1
  exact epochBody_best_le args p inp s1 n s2 hb

theorem runLoop_some_of_le (args : Args) (p : Nat) (inp : RunInput) (n m : Nat)
    (hle : n ≤ m) (s : LoopState) (h : runLoop args p inp m = some s) :
    ∃ s0, runLoop args p inp n = some s0 := by
  induction m generalizing s with
  | zero => cases Nat.le_zero.mp hle; exact ⟨s, h⟩
  | succ k ih =>
    rcases Nat.lt_or_ge n (k + 1) with hlt | hge
    · obtain ⟨s0, h0, _⟩ := runLoop_succ_some args p inp k s h
      exact ih (Nat.lt_succ_iff.mp hlt) s0 h0
    · cases Nat.le_antisymm hle hge
      exact ⟨s, h⟩

theorem runLoop_best_mono (args : Args) (p : Nat) (inp : RunInput) (e1 e2 : Nat)
    (hle : e1 ≤ e2) (s1 s2 : LoopState) (h1 : runLoop args p inp e1 = some s1)
    (h2 : runLoop args p inp e2 = some s2) : s1.best ≤ s2.best := by
  induction e2 generalizing s2 with
  | zero => cases Nat.le_zero.mp hle; rw [h1] at h2; cases Option.some_inj.mp h2; rfl
  | succ k ih =>
    rcases Nat.lt_or_ge e1 (k + 1) with hlt | hge
    · obtain ⟨s0, h0, _⟩ := runLoop_succ_some args p inp k s2 h2
      exact le_trans (ih (Nat.lt_succ_iff.mp hlt) s0 h0)
        (runLoop_best_le_succ args p inp k s0 s2 h0 h2)
    · cases Nat.le_antisymm hle hge
      rw [h1] at h2; cases Option.some_inj.mp h2; rfl

theorem epochBody_nonleader (args : Args) (p : Nat) (inp : RunInput) (st : LoopState)
    (e : Nat) (s2 : LoopState) (hp : p ≠ 0) (h : epochBody args p inp st e = some s2) :
    s2.best = st.best ∧ s2.trace = st.trace ++ [(e, [])] := by
  obtain ⟨ea, em, best2, evs, _, _, hl, hs⟩ := epochBody_some args p inp st e s2 h
  rw [leaderEval_not_run args p st.best e _ _ _ _ _ (fun hc => hp hc.1)] at hl
  have h2 := Option.some_inj.mp hl
  have hb2 : st.best = best2 := congrArg Prod.fst h2
  have hevs : ([] : List Event) = evs := congrArg Prod.snd h2
  rw [hs, ← hb2, ← hevs]
  exact ⟨rfl, rfl⟩

theorem runLoop_nonleader (args : Args) (p : Nat) (inp : RunInput) (n : Nat)
    (s : LoopState) (hp : p ≠ 0) (h : runLoop args p inp n = some s) :
    s.best = 0 ∧ s.trace = (List.range n).map (fun e => (e, [])) := by
  induction n generalizing s with
  | zero =>
    cases Option.some_inj.mp h
    exact ⟨rfl, rfl⟩
  | succ k ih =>
    obtain ⟨s0, h0, hb⟩ := runLoop_succ_some args p inp k s h
    obtain ⟨hbest, htr⟩ := epochBody_nonleader args p inp s0 k s hp hb
    obtain ⟨hb0, ht0⟩ := ih s0 h0
    refine ⟨by rw [hbest, hb0], ?_⟩
    rw [htr, ht0, List.range_succ, List.map_append]
    rfl

theorem epochBody_sched (args : Args) (p : Nat) (inp : RunInput) (st : LoopState)
    (e : Nat) (s2 : LoopState) (h : epochBody args p inp st e = some s2) :
    s2.sched = schedStep args.sched_stepsize args.sched_gamma st.sched := by
  obtain ⟨_, _, _, _, _, _, _, hs⟩ := epochBody_some args p inp st e s2 h
  rw [hs]

theorem runLoop_sched (args : Args) (p : Nat) (inp : RunInput) (n : Nat)
    (s : LoopState) (h : runLoop args p inp n = some s) :
    s.sched = (schedStep args.sched_stepsize args.sched_gamma)^[n]
      (0, args.learning_rate) := by
  induction n generalizing s with
  | zero => cases Option.some_inj.mp h; rfl
  | succ k ih =>
    obtain ⟨s0, h0, hb⟩ := runLoop_succ_some args p inp k s h
    rw [epochBody_sched args p inp s0 k s hb, ih s0 h0,
      Function.iterate_succ_apply']

theorem schedStep_iterate (ss : Nat) (g lr0 : ℚ) (k : Nat) :
    (schedStep ss g)^[k] (0, lr0) = (k, lr0 * g ^ (k / ss)) := by
  induction k with
  | zero => simp
  | succ k ih =>
    rw [Function.iterate_succ_apply', ih]
    unfold schedStep
    simp only
    by_cases hd : (k + 1) % ss = 0
    · have hdvd : ss ∣ k + 1 := Nat.dvd_iff_mod_eq_zero.mpr hd
      rw [if_pos hd, Nat.succ_div, if_pos hdvd, pow_succ]
      ring_nf
    · have hnd : ¬ ss ∣ k + 1 := fun hdvd => hd (Nat.dvd_iff_mod_eq_zero.mp hdvd)
      rw [if_neg hd, Nat.succ_div, if_neg hnd]
      simp

theorem runLoop_trace_fst (args : Args) (p : Nat) (inp : RunInput) (n : Nat)
    (s : LoopState) (h : runLoop args p inp n = some s) :
    s.trace.map Prod.fst = List.range n := by
  induction n generalizing s with
  | zero => cases Option.some_inj.mp h; rfl
  | succ k ih =>
    obtain ⟨s0, h0, hb⟩ := runLoop_succ_some args p inp k s h
    obtain ⟨_, _, _, evs, _, _, _, hs⟩ := epochBody_some args p inp s0 k s hb
    rw [hs, List.range_succ]
    simp only [List.map_append]
    rw [ih s0 h0]
    rfl

theorem runLoop_trace_mem (args : Args) (p : Nat) (inp : RunInput) (n : Nat)
    (s : LoopState) (h : runLoop args p inp n = some s) (e : Nat) (evs : List Event)
    (hm : (e, evs) ∈ s.trace) :
    ∃ s0 ea em best2, runLoop args p inp e = some s0 ∧
      pyMean ((inp.epochData e).train.map batchAcc) = some ea ∧
      pyMean ((inp.epochData e).train.map (fun b => b.mem)) = some em ∧
      leaderEval args p s0.best e (inp.epochData e).val
        (((inp.epochData e).train.map (fun b => b.loss)).sum) ea
        (inp.epochData e).duration em = some (best2, evs) := by
  induction n generalizing s with
  | zero => cases Option.some_inj.mp h; cases hm
  | succ k ih =>
    obtain ⟨s0, h0, hb⟩ := runLoop_succ_some args p inp k s h
    obtain ⟨ea, em, best2, evs2, ha, hmm, hl, hs⟩ := epochBody_some args p inp s0 k s hb
    rw [hs] at hm
    rcases List.mem_append.mp hm with hin | hlast
    · exact ih s0 h0 hin
    · have hpair : (e, evs) = (k, evs2) := List.mem_singleton.mp hlast
      have he : e = k := congrArg Prod.fst hpair
      have hevs : evs = evs2 := congrArg Prod.snd hpair
      subst he; subst hevs
      exact ⟨s0, ea, em, best2, h0, ha, hmm, hl⟩

theorem runLoop_trace_exists (args : Args) (p : Nat) (inp : RunInput) (n : Nat)
    (s : LoopState) (h : runLoop args p inp n = some s) (e : Nat) (he : e < n) :
    ∃ evs, (e, evs) ∈ s.trace := by
  have hf := runLoop_trace_fst args p inp n s h
  have hmem : e ∈ s.trace.map Prod.fst := by
    rw [hf]; exact List.mem_range.mpr he
  obtain ⟨pr, hpr, hfst⟩ := List.mem_map.mp hmem
  exact ⟨pr.2, by rw [← hfst]; exact hpr⟩

theorem run_some (args : Args) (p : Nat) (inp : RunInput) (r : RunResult)
    (h : run args p inp = some r) :
    ∃ st, runLoop args p inp args.epochs = some st ∧ r.best = st.best ∧
      r.schedSteps = st.sched.1 ∧ r.lr = st.sched.2 ∧ r.trace = st.trace ∧
      finalPhase p inp = some r.finalEvents := by
  unfold run at h
  cases hL : runLoop args p inp args.epochs with
  | none => rw [hL] at h; exact absurd h (by simp)
  | some st =>
    rw [hL] at h
    cases hF : finalPhase p inp with
    | none => rw [hF] at h; exact absurd h (by simp)
    | some fevs =>
      rw [hF] at h
      cases Option.some_inj.mp h
      exact ⟨st, rfl, rfl, rfl, rfl, rfl, rfl⟩

theorem evalUpdate_pos (ms : Bool) (b v : ℚ) (hv : b < v) :
    evalUpdate ms b v = (v, if ms then [Event.checkpoint] else []) := by
  unfold evalUpdate
  rw [if_pos hv]

theorem evalUpdate_neg (ms : Bool) (b v : ℚ) (hv : ¬b < v) :
    evalUpdate ms b v = (b, []) := by
  unfold evalUpdate
  rw [if_neg hv]

theorem epochBody_build (args : Args) (p : Nat) (inp : RunInput) (st : LoopState)
    (e : Nat) (ea em best2 : ℚ) (evs : List Event)
    (ha : pyMean ((inp.epochData e).train.map batchAcc) = some ea)
    (hm : pyMean ((inp.epochData e).train.map (fun b => b.mem)) = some em)
    (hl : leaderEval args p st.best e (inp.epochData e).val
      (((inp.epochData e).train.map (fun b => b.loss)).sum) ea
      (inp.epochData e).duration em = some (best2, evs)) :
    epochBody args p inp st e =
      some { best := best2,
             sched := schedStep args.sched_stepsize args.sched_gamma st.sched,
             trace := st.trace ++ [(e, evs)] } := by
  simp only [epochBody, ha, hm, hl]

/-- The synthetic four-epoch leader run, fully evaluated: checkpoints at
epochs 0, 1 and 3 and final tracker value 70. -/
theorem synthRunEq : run synthArgs 0 synthInput = some
    { best := 70, schedSteps := 4, lr := 1 / 100,
      trace := [(0, [Event.checkpoint, Event.logLine 0 1 50 40 1 0]),
                (1, [Event.checkpoint, Event.logLine 1 1 50 55 1 0]),
                (2, [Event.logLine 2 1 50 50 1 0]),
                (3, [Event.checkpoint, Event.logLine 3 1 50 70 1 0])],
      finalEvents := [Event.testLine 25 9] } := by
  simp only [run, runLoop, epochStep, epochBody, leaderEval, evalUpdate, drainEval,
    finalPhase, synthArgs, synthInput, synthValSeq, mkEvalBatch, mkTrainBatch,
    accuracy_score, matchCount, argmaxIdx, argmaxFrom, List.replicate, pyMean, batchAcc,
    schedStep, initState, List.range_succ, List.foldl_append, List.foldl_cons,
    List.foldl_nil, List.map_cons, List.map_nil, List.sum_cons, List.sum_nil,
    List.flatten, List.append_nil, List.nil_append, List.length_cons, List.length_nil,
    List.isEmpty]
  norm_num

/-- C1 — counterexample.  Feeding the synthetic validation-accuracy
sequence [40, 55, 50, 70] across four evaluation epochs with
checkpointing enabled triggers THREE checkpoint writes, on evaluation
steps 1, 2 and 4 (epochs 0, 1, 3) — not two writes at steps 1 and 4 as
the claim states: the tracker starts at 0, so step 1 (0 → 40) and step
2 (40 → 55) both strictly increase it. -/
theorem ckpt_writes_synth_seq_counterexample :
    ckptEpochs (runTrace (run synthArgs 0 synthInput)) = [0, 1, 3] ∧
    (ckptEpochs (runTrace (run synthArgs 0 synthInput))).length = 3 ∧
    ¬((ckptEpochs (runTrace (run synthArgs 0 synthInput))).length = 2 ∧
      ckptEpochs (runTrace (run synthArgs 0 synthInput)) = [0, 3]) := by
  rw [synthRunEq]
  refine ⟨?_, ?_, ?_⟩ <;>
    simp [ckptEpochs, runTrace, isCkpt, List.filter_cons, List.filter_nil,
      List.any_cons, List.any_nil]

/-- C1 (amended): on every evaluation epoch, if the computed validation
accuracy strictly exceeds the best-accuracy tracker, the tracker is
updated and, when checkpointing is enabled, the model state is
persisted; a checkpoint write occurs exactly on the epochs where the
tracker strictly increases.  Feeding the synthetic validation-accuracy
sequence [40, 55, 50, 70] across four evaluation epochs triggers
exactly THREE checkpoint writes, at steps 1, 2 and 4. -/
theorem ckpt_write_iff_tracker_increase (args : Args) (p : Nat) (inp : RunInput)
    (r : RunResult) (h : run args p inp = some r) (e : Nat) (evs : List Event)
    (hm : (e, evs) ∈ r.trace) :
    (Event.checkpoint ∈ evs ↔
      (args.model_save = true ∧ ∃ s0 s1, runLoop args p inp e = some s0 ∧
        runLoop args p inp (e + 1) = some s1 ∧ s0.best < s1.best)) ∧
    ckptEpochs (runTrace (run synthArgs 0 synthInput)) = [0, 1, 3] := by
  obtain ⟨st, hL, _, _, _, htr, _⟩ := run_some args p inp r h
  rw [htr] at hm
  obtain ⟨s0, ea, em, best2, h0, ha, hmm, hl⟩ :=
    runLoop_trace_mem args p inp args.epochs st hL e evs hm
  have hnext := epochBody_build args p inp s0 e ea em best2 evs ha hmm hl
  have h1 : runLoop args p inp (e + 1) =
      some { best := best2,
             sched := schedStep args.sched_stepsize args.sched_gamma s0.sched,
             trace := s0.trace ++ [(e, evs)] } := by
    rw [runLoop_succ, h0]
    exact hnext
  constructor
  · constructor
    · intro hck
      rcases leaderEval_some_inv _ _ _ _ _ _ _ _ _ _ _ hl with
        ⟨_, _, hevs⟩ | ⟨_, _, v, hv, hb2, hevs⟩
      · rw [hevs] at hck; cases hck
      · by_cases hlt : s0.best < v
        · rw [evalUpdate_pos _ _ _ hlt] at hb2 hevs
          cases hms : args.model_save with
          | false =>
            rw [hms] at hevs
            simp only [if_neg Bool.false_ne_true] at hevs
            rw [hevs] at hck
            simp at hck
          | true =>
            refine ⟨rfl, s0, _, h0, h1, ?_⟩
            simp only [hb2]
            exact hlt
        · rw [evalUpdate_neg _ _ _ hlt] at hevs
          rw [hevs] at hck
          simp at hck
    · rintro ⟨hms, s0x, s1x, h0x, h1x, hlt⟩
      rw [h0] at h0x
      cases Option.some_inj.mp h0x
      rw [h1] at h1x
      cases Option.some_inj.mp h1x
      simp only at hlt
      rcases leaderEval_some_inv _ _ _ _ _ _ _ _ _ _ _ hl with
        ⟨_, hb2, _⟩ | ⟨_, _, v, hv, hb2, hevs⟩
      · rw [hb2] at hlt; exact absurd hlt (lt_irrefl _)
      · by_cases hltv : s0.best < v
        · rw [evalUpdate_pos _ _ _ hltv, hms] at hevs
          rw [hevs]
          simp
        · rw [evalUpdate_neg _ _ _ hltv] at hb2
          rw [hb2] at hlt
          exact absurd hlt (lt_irrefl _)
  · rw [synthRunEq]
    simp [ckptEpochs, runTrace, isCkpt, List.filter_cons, List.filter_nil,
      List.any_cons, List.any_nil]

/-- Witness for C1 (amended): the synthetic leader run satisfies the
hypotheses at epoch 3, where the tracker rises from 55 to 70 and a
checkpoint is written. -/
theorem ckpt_write_iff_tracker_increase_witness :
    (Event.checkpoint ∈ [Event.checkpoint, Event.logLine 3 1 50 70 1 0] ↔
      (synthArgs.model_save = true ∧ ∃ s0 s1,
        runLoop synthArgs 0 synthInput 3 = some s0 ∧
        runLoop synthArgs 0 synthInput 4 = some s1 ∧ s0.best < s1.best)) ∧
    ckptEpochs (runTrace (run synthArgs 0 synthInput)) = [0, 1, 3] := by
  refine ckpt_write_iff_tracker_increase synthArgs 0 synthInput _ synthRunEq 3
    [Event.checkpoint, Event.logLine 3 1 50 70 1 0] ?_
  simp

/-- C2: the best-accuracy tracker is a single scalar initialised to
zero (line 101); it is written only in the leader's evaluation branch —
on any non-leader worker it stays 0 for the whole run — and it is
monotonically non-decreasing over the run: for evaluation epochs
e1 ≤ e2 the tracker after e2 is at least the tracker after e1. -/
theorem best_tracker_zero_leader_monotone (args : Args) (p : Nat) (inp : RunInput)
    (e1 e2 : Nat) (hle : e1 ≤ e2) (s1 s2 : LoopState)
    (h1 : runLoop args p inp e1 = some s1) (h2 : runLoop args p inp e2 = some s2) :
    (initState args).best = 0 ∧ s1.best ≤ s2.best ∧
    (p ≠ 0 → s1.best = 0 ∧ s2.best = 0) := by
  refine ⟨rfl, runLoop_best_mono args p inp e1 e2 hle s1 s2 h1 h2, fun hp => ?_⟩
  exact ⟨(runLoop_nonleader args p inp e1 s1 hp h1).1,
    (runLoop_nonleader args p inp e2 s2 hp h2).1⟩

/-- Witness for C2: the synthetic run on non-leader worker 1, after 1
and after 4 epochs. -/
theorem best_tracker_zero_leader_monotone_witness :
    (initState synthArgs).best = 0 ∧
    ({ best := 0, sched := (1, 1 / 100), trace := [(0, [])] } : LoopState).best ≤
      ({ best := 0, sched := (4, 1 / 100),
         trace := [(0, []), (1, []), (2, []), (3, [])] } : LoopState).best ∧
    ((1 : Nat) ≠ 0 →
      ({ best := 0, sched := (1, 1 / 100), trace := [(0, [])] } : LoopState).best = 0 ∧
      ({ best := 0, sched := (4, 1 / 100),
         trace := [(0, []), (1, []), (2, []), (3, [])] } : LoopState).best = 0) := by
  have h1 : runLoop synthArgs 1 synthInput 1 =
      some { best := 0, sched := (1, 1 / 100), trace := [(0, [])] } := by
    simp only [runLoop, epochStep, epochBody, leaderEval, evalUpdate, drainEval,
      synthArgs, synthInput, synthValSeq, mkEvalBatch, mkTrainBatch, accuracy_score,
      matchCount, argmaxIdx, argmaxFrom, List.replicate, pyMean, batchAcc, schedStep,
      initState, List.range_succ, List.foldl_append, List.foldl_cons, List.foldl_nil,
      List.map_cons, List.map_nil, List.sum_cons, List.sum_nil, List.flatten,
      List.append_nil, List.nil_append, List.length_cons, List.length_nil, List.isEmpty]
    norm_num
  have h4 : runLoop synthArgs 1 synthInput 4 =
      some { best := 0, sched := (4, 1 / 100),
             trace := [(0, []), (1, []), (2, []), (3, [])] } := by
    simp only [runLoop, epochStep, epochBody, leaderEval, evalUpdate, drainEval,
      synthArgs, synthInput, synthValSeq, mkEvalBatch, mkTrainBatch, accuracy_score,
      matchCount, argmaxIdx, argmaxFrom, List.replicate, pyMean, batchAcc, schedStep,
      initState, List.range_succ, List.foldl_append, List.foldl_cons, List.foldl_nil,
      List.map_cons, List.map_nil, List.sum_cons, List.sum_nil, List.flatten,
      List.append_nil, List.nil_append, List.length_cons, List.length_nil, List.isEmpty]
    norm_num
  exact best_tracker_zero_leader_monotone synthArgs 1 synthInput 1 4 (by norm_num)
    _ _ h1 h4

/-- C4: every worker advances the learning-rate schedule exactly once
per epoch (`sched.step()` at line 165 sits inside the epoch loop but
outside the leader/evaluation guard, so the count of steps equals the
epoch count on every worker, whether or not evaluation ran); the rate
after k schedule steps is `initial_rate * gamma ^ (k / step_size)`, and
in particular with initial rate 0.01, step_size 25 and gamma 0.25 the
rate after 60 steps is 0.01 * 0.25² = 0.000625. -/
theorem sched_once_per_epoch_closed_form (args : Args) (p : Nat) (inp : RunInput)
    (r : RunResult) (h : run args p inp = some r) (k : Nat) :
    r.schedSteps = args.epochs ∧
    r.lr = args.learning_rate * args.sched_gamma ^ (args.epochs / args.sched_stepsize) ∧
    (schedStep args.sched_stepsize args.sched_gamma)^[k] (0, args.learning_rate) =
      (k, args.learning_rate * args.sched_gamma ^ (k / args.sched_stepsize)) ∧
    ((schedStep 25 (1 / 4))^[60] (0, 1 / 100)).2 = 1 / 100 * (1 / 4) ^ 2 ∧
    ((schedStep 25 (1 / 4))^[60] (0, 1 / 100)).2 = 625 / 1000000 := by
  obtain ⟨st, hL, _, hsteps, hlr, _, _⟩ := run_some args p inp r h
  have hsched := runLoop_sched args p inp args.epochs st hL
  rw [schedStep_iterate] at hsched
  have h60 := schedStep_iterate 25 (1 / 4) (1 / 100) 60
  refine ⟨?_, ?_, schedStep_iterate _ _ _ _, ?_, ?_⟩
  · rw [hsteps, hsched]
  · rw [hlr, hsched]
  · rw [h60]
  · rw [h60]; norm_num

/-- Witness for C4: the synthetic four-epoch run, with k = 60. -/
theorem sched_once_per_epoch_closed_form_witness :
    ({ best := 70, schedSteps := 4, lr := 1 / 100,
       trace := [(0, [Event.checkpoint, Event.logLine 0 1 50 40 1 0]),
                 (1, [Event.checkpoint, Event.logLine 1 1 50 55 1 0]),
                 (2, [Event.logLine 2 1 50 50 1 0]),
                 (3, [Event.checkpoint, Event.logLine 3 1 50 70 1 0])],
       finalEvents := [Event.testLine 25 9] } : RunResult).schedSteps =
      synthArgs.epochs ∧
    ({ best := 70, schedSteps := 4, lr := 1 / 100,
       trace := [(0, [Event.checkpoint, Event.logLine 0 1 50 40 1 0]),
                 (1, [Event.checkpoint, Event.logLine 1 1 50 55 1 0]),
                 (2, [Event.logLine 2 1 50 50 1 0]),
                 (3, [Event.checkpoint, Event.logLine 3 1 50 70 1 0])],
       finalEvents := [Event.testLine 25 9] } : RunResult).lr =
      synthArgs.learning_rate *
        synthArgs.sched_gamma ^ (synthArgs.epochs / synthArgs.sched_stepsize) ∧
    (schedStep synthArgs.sched_stepsize synthArgs.sched_gamma)^[60]
        (0, synthArgs.learning_rate) =
      (60, synthArgs.learning_rate *
        synthArgs.sched_gamma ^ (60 / synthArgs.sched_stepsize)) ∧
    ((schedStep 25 (1 / 4))^[60] (0, 1 / 100)).2 = 1 / 100 * (1 / 4) ^ 2 ∧
    ((schedStep 25 (1 / 4))^[60] (0, 1 / 100)).2 = 625 / 1000000 :=
  sched_once_per_epoch_closed_form synthArgs 0 synthInput _ synthRunEq 60

theorem evalUpdate_snd_ckpt (ms : Bool) (b v : ℚ) (ev : Event)
    (h : ev ∈ (evalUpdate ms b v).2) : ev = Event.checkpoint := by
  unfold evalUpdate at h
  by_cases hlt : b < v
  · rw [if_pos hlt] at h
    cases ms with
    | true => simpa using h
    | false => simp at h
  · rw [if_neg hlt] at h
    cases h

theorem evalUpdate_filter_log (ms : Bool) (b v : ℚ) :
    (evalUpdate ms b v).2.filter isLogLine = [] := by
  rw [List.filter_eq_nil_iff]
  intro ev hev
  rw [evalUpdate_snd_ckpt ms b v ev hev]
  simp [isLogLine]

/-- C5: validation evaluation and its log line occur exactly on the
leader worker on epochs with `epoch % log_every == 0`: each such trace
entry carries exactly one log line; non-leader workers record no events
at all; and any log line's six fields are the epoch index, the epoch
loss sum, the mean per-batch train accuracy, the accuracy of the fully
drained and concatenated validation pipeline, the epoch wall-clock
duration and the mean per-batch memory. -/
theorem leader_eval_log_policy (args : Args) (p : Nat) (inp : RunInput)
    (r : RunResult) (h : run args p inp = some r) (e : Nat) (evs : List Event)
    (hm : (e, evs) ∈ r.trace) :
    ((evs.filter isLogLine).length =
      if p = 0 ∧ e % args.log_every = 0 then 1 else 0) ∧
    (p ≠ 0 → evs = []) ∧
    (∀ e2 l a v du m, Event.logLine e2 l a v du m ∈ evs →
      e2 = e ∧
      l = ((inp.epochData e).train.map (fun b => b.loss)).sum ∧
      some a = pyMean ((inp.epochData e).train.map batchAcc) ∧
      some v = drainEval (inp.epochData e).val ∧
      du = (inp.epochData e).duration ∧
      some m = pyMean ((inp.epochData e).train.map (fun b => b.mem))) := by
  obtain ⟨st, hL, _, _, _, htr, _⟩ := run_some args p inp r h
  rw [htr] at hm
  obtain ⟨s0, ea, em, best2, h0, ha, hmm, hl⟩ :=
    runLoop_trace_mem args p inp args.epochs st hL e evs hm
  rcases leaderEval_some_inv _ _ _ _ _ _ _ _ _ _ _ hl with
    ⟨hnc, _, hevs⟩ | ⟨hp0, he0, v0, hv0, _, hevs⟩
  · subst hevs
    refine ⟨by rw [if_neg hnc]; rfl, fun _ => rfl, ?_⟩
    intro e2 l a v du m hmem
    cases hmem
  · subst hevs
    refine ⟨?_, ?_, ?_⟩
    · rw [if_pos ⟨hp0, he0⟩, List.filter_append, evalUpdate_filter_log]
      simp [isLogLine]
    · intro hp
      exact absurd hp0 hp
    · intro e2 l a v du m hmem
      rcases List.mem_append.mp hmem with hin | hone
      · exact absurd (evalUpdate_snd_ckpt _ _ _ _ hin) (by simp)
      · have := List.mem_singleton.mp hone
        injection this with h1 h2 h3 h4 h5 h6
        subst h1; subst h2; subst h3; subst h4; subst h5; subst h6
        exact ⟨rfl, rfl, ha.symm, hv0.symm, rfl, hmm.symm⟩

/-- Witness for C5: the synthetic run's epoch-0 entry on the leader —
one log line whose fields match the epoch-0 data. -/
theorem leader_eval_log_policy_witness :
    (([Event.checkpoint, Event.logLine 0 1 50 40 1 0].filter isLogLine).length =
      if (0 : Nat) = 0 ∧ 0 % synthArgs.log_every = 0 then 1 else 0) ∧
    ((0 : Nat) = 0 ∧
      (1 : ℚ) = ((synthInput.epochData 0).train.map (fun b => b.loss)).sum ∧
      some (50 : ℚ) = pyMean ((synthInput.epochData 0).train.map batchAcc) ∧
      some (40 : ℚ) = drainEval (synthInput.epochData 0).val ∧
      (1 : ℚ) = (synthInput.epochData 0).duration ∧
      some (0 : ℚ) = pyMean ((synthInput.epochData 0).train.map (fun b => b.mem))) := by
  have H := leader_eval_log_policy synthArgs 0 synthInput _ synthRunEq 0
    [Event.checkpoint, Event.logLine 0 1 50 40 1 0] (by simp)
  exact ⟨H.1, H.2.2 0 1 50 40 1 0 (by simp)⟩

/-- C9: after the last training epoch the final test evaluation
(lines 167–181) runs exactly once and only on the leader: worker 0's
final events are a single test line whose accuracy comes from draining
the test pipeline with the same concatenate-and-score procedure
(`drainEval`) and whose second field is the total elapsed wall-clock
time; it contains no checkpoint and no validation log line, and the
best-accuracy tracker keeps its post-loop value; non-leader workers
emit nothing. -/
theorem final_test_leader_only (args : Args) (p : Nat) (inp : RunInput)
    (r : RunResult) (h : run args p inp = some r) :
    (p = 0 → ∃ t, drainEval inp.test = some t ∧
      r.finalEvents = [Event.testLine t inp.totalTime]) ∧
    (p ≠ 0 → r.finalEvents = []) ∧
    ((r.finalEvents.filter isTestLine).length = if p = 0 then 1 else 0) ∧
    (∀ ev, ev ∈ r.finalEvents → isCkpt ev = false ∧ isLogLine ev = false) ∧
    (∀ st, runLoop args p inp args.epochs = some st → r.best = st.best) := by
  obtain ⟨st, hL, hbest, _, _, _, hF⟩ := run_some args p inp r h
  unfold finalPhase at hF
  by_cases hp : p = 0
  · rw [if_pos hp] at hF
    cases hd : drainEval inp.test with
    | none => rw [hd] at hF; exact absurd hF (by simp)
    | some t =>
      rw [hd] at hF
      have hfe : r.finalEvents = [Event.testLine t inp.totalTime] :=
        (Option.some_inj.mp hF).symm
      refine ⟨fun _ => ⟨t, rfl, hfe⟩, fun hne => absurd hp hne, ?_, ?_, ?_⟩
      · rw [hfe, if_pos hp]
        simp [isTestLine]
      · intro ev hev
        rw [hfe] at hev
        rw [List.mem_singleton.mp hev]
        exact ⟨rfl, rfl⟩
      · intro st2 hst2
        rw [hL] at hst2
        cases Option.some_inj.mp hst2
        exact hbest
  · rw [if_neg hp] at hF
    have hfe : r.finalEvents = [] := (Option.some_inj.mp hF).symm
    refine ⟨fun h0 => absurd h0 hp, fun _ => hfe, ?_, ?_, ?_⟩
    · rw [hfe, if_neg hp]; rfl
    · intro ev hev
      rw [hfe] at hev
      cases hev
    · intro st2 hst2
      rw [hL] at hst2
      cases Option.some_inj.mp hst2
      exact hbest

/-- Witness for C9: the synthetic leader run — one test line, no
checkpoint or log line among the final events. -/
theorem final_test_leader_only_witness :
    (([Event.testLine 25 9].filter isTestLine).length =
      if (0 : Nat) = 0 then 1 else 0) ∧
    (isCkpt (Event.testLine 25 9) = false ∧ isLogLine (Event.testLine 25 9) = false) := by
  have H := final_test_leader_only synthArgs 0 synthInput _ synthRunEq
  exact ⟨H.2.2.1, H.2.2.2.1 (Event.testLine 25 9) (by simp)⟩

theorem matchCount_eq_countP_zip (as bs : List Nat) :
    matchCount as bs = (as.zip bs).countP (fun pr => pr.1 == pr.2) := by
  induction as generalizing bs with
  | nil => cases bs <;> rfl
  | cons a t ih =>
    cases bs with
    | nil => rfl
    | cons b bt =>
      simp only [matchCount, List.zip_cons_cons, List.countP_cons, ih bt]
      by_cases hab : a = b
      · rw [if_pos hab]
        simp [hab, Nat.add_comm]
      · rw [if_neg hab]
        simp [hab]

theorem pyMean_some (l : List ℚ) (x : ℚ) (h : pyMean l = some x) :
    x = l.sum / (l.length : ℚ) := by
  unfold pyMean at h
  by_cases he : l.isEmpty
  · rw [if_pos he] at h; cases h
  · rw [if_neg he] at h; exact (Option.some_inj.mp h).symm

/-- C6: each train minibatch contributes a per-batch accuracy equal to
the fraction of labels whose argmax prediction is correct times 100,
and a memory sample; the epoch's logged accuracy is the arithmetic mean
of the per-batch accuracies, its logged memory the arithmetic mean of
the per-batch memory samples, and its logged loss the sum of the
per-batch losses. -/
theorem epoch_aggregation (args : Args) (p : Nat) (inp : RunInput)
    (r : RunResult) (h : run args p inp = some r) (e : Nat) (evs : List Event)
    (hm : (e, evs) ∈ r.trace) (e2 : Nat) (l a v du m : ℚ)
    (hlog : Event.logLine e2 l a v du m ∈ evs) :
    l = ((inp.epochData e).train.map (fun b => b.loss)).sum ∧
    a = ((inp.epochData e).train.map batchAcc).sum /
      (((inp.epochData e).train.length : ℚ)) ∧
    m = ((inp.epochData e).train.map (fun b => b.mem)).sum /
      (((inp.epochData e).train.length : ℚ)) ∧
    (∀ b : TrainBatch, batchAcc b =
      (((b.labels.zip (b.preds.map argmaxIdx)).countP (fun pr => pr.1 == pr.2) : ℚ) /
        (b.labels.length : ℚ)) * 100) := by
  obtain ⟨he2, hl, ha, hv, hdu, hmem⟩ :=
    (leader_eval_log_policy args p inp r h e evs hm).2.2 e2 l a v du m hlog
  refine ⟨hl, ?_, ?_, ?_⟩
  · have h2 := pyMean_some _ _ ha.symm
    rw [h2, List.length_map]
  · have h2 := pyMean_some _ _ hmem.symm
    rw [h2, List.length_map]
  · intro b
    unfold batchAcc accuracy_score
    rw [matchCount_eq_countP_zip]

/-- Witness for C6: the synthetic run's epoch-0 log line — loss 1 is
the batch-loss sum, accuracy 50 the batch-accuracy mean, memory 0 the
batch-memory mean; batch accuracy is the correct fraction × 100. -/
theorem epoch_aggregation_witness :
    (1 : ℚ) = ((synthInput.epochData 0).train.map (fun b => b.loss)).sum ∧
    (50 : ℚ) = ((synthInput.epochData 0).train.map batchAcc).sum /
      (((synthInput.epochData 0).train.length : ℚ)) ∧
    (0 : ℚ) = ((synthInput.epochData 0).train.map (fun b => b.mem)).sum /
      (((synthInput.epochData 0).train.length : ℚ)) ∧
    batchAcc (mkTrainBatch 4 2 1 0) =
      ((((mkTrainBatch 4 2 1 0).labels.zip
          ((mkTrainBatch 4 2 1 0).preds.map argmaxIdx)).countP
            (fun pr => pr.1 == pr.2) : ℚ) /
        ((mkTrainBatch 4 2 1 0).labels.length : ℚ)) * 100 := by
  have H := epoch_aggregation synthArgs 0 synthInput _ synthRunEq 0
    [Event.checkpoint, Event.logLine 0 1 50 40 1 0] (by simp) 0 1 50 40 1 0 (by simp)
  exact ⟨H.1, H.2.1, H.2.2.1, H.2.2.2 (mkTrainBatch 4 2 1 0)⟩

theorem pyMean_of_ne_nil (l : List ℚ) (h : l ≠ []) :
    pyMean l = some (l.sum / (l.length : ℚ)) := by
  unfold pyMean
  rw [if_neg (by simp [List.isEmpty_iff, h])]

theorem drainEval_of_ne_nil (batches : List EvalBatch) (h : batches ≠ []) :
    ∃ v, drainEval batches = some v := by
  unfold drainEval
  rw [if_neg (by simp [List.isEmpty_iff, h])]
  exact ⟨_, rfl⟩

theorem leaderEval_total (args : Args) (p : Nat) (best : ℚ) (e : Nat)
    (val : List EvalBatch) (l a du m : ℚ)
    (hval : p = 0 → e % args.log_every = 0 → val ≠ []) :
    ∃ pr, leaderEval args p best e val l a du m = some pr := by
  by_cases hc : p = 0 ∧ e % args.log_every = 0
  · obtain ⟨v, hv⟩ := drainEval_of_ne_nil val (hval hc.1 hc.2)
    unfold leaderEval
    rw [if_pos hc, hv]
    exact ⟨_, rfl⟩
  · exact ⟨_, leaderEval_not_run args p best e val l a du m hc⟩

theorem epochBody_total (args : Args) (p : Nat) (inp : RunInput) (st : LoopState)
    (e : Nat) (htrain : (inp.epochData e).train ≠ [])
    (hval : p = 0 → e % args.log_every = 0 → (inp.epochData e).val ≠ []) :
    ∃ s2, epochBody args p inp st e = some s2 := by
  have hne : (inp.epochData e).train.map batchAcc ≠ [] := by
    simp [htrain]
  have hne2 : (inp.epochData e).train.map (fun b => b.mem) ≠ [] := by
    simp [htrain]
  obtain ⟨pr, hpr⟩ := leaderEval_total args p st.best e (inp.epochData e).val
    (((inp.epochData e).train.map (fun b => b.loss)).sum)
    ((((inp.epochData e).train.map batchAcc).sum /
      (((inp.epochData e).train.map batchAcc).length : ℚ)))
    (inp.epochData e).duration
    ((((inp.epochData e).train.map (fun b => b.mem)).sum /
      (((inp.epochData e).train.map (fun b => b.mem)).length : ℚ))) hval
  refine ⟨_, epochBody_build args p inp st e _ _ pr.1 pr.2
    (pyMean_of_ne_nil _ hne) (pyMean_of_ne_nil _ hne2) ?_⟩
  rw [hpr]

/-- C10: the per-epoch means divide by zero on an empty train shard and
the evaluation drains fail on an empty pipeline (both modelled as
`none`); under the precondition that every epoch's train shard is
non-empty, the validation set is non-empty on the leader's evaluation
epochs and the test set is non-empty on the leader, the whole run
reaches no error branch. -/
theorem run_no_crash (args : Args) (p : Nat) (inp : RunInput)
    (htrain : ∀ e, e < args.epochs → (inp.epochData e).train ≠ [])
    (hval : ∀ e, e < args.epochs → p = 0 → e % args.log_every = 0 →
      (inp.epochData e).val ≠ [])
    (htest : p = 0 → inp.test ≠ []) :
    run args p inp ≠ none ∧ pyMean [] = none ∧ drainEval [] = none := by
  have hloop : ∀ n, n ≤ args.epochs → ∃ s, runLoop args p inp n = some s := by
    intro n
    induction n with
    | zero => exact fun _ => ⟨initState args, rfl⟩
    | succ k ih =>
      intro hk
      obtain ⟨s, hs⟩ := ih (Nat.le_of_succ_le hk)
      obtain ⟨s2, hs2⟩ := epochBody_total args p inp s k
        (htrain k (Nat.lt_of_succ_le hk)) (hval k (Nat.lt_of_succ_le hk))
      refine ⟨s2, ?_⟩
      rw [runLoop_succ, hs]
      exact hs2
  obtain ⟨s, hs⟩ := hloop args.epochs (le_refl _)
  have hfin : ∃ fevs, finalPhase p inp = some fevs := by
    unfold finalPhase
    by_cases hp : p = 0
    · rw [if_pos hp]
      obtain ⟨v, hv⟩ := drainEval_of_ne_nil inp.test (htest hp)
      rw [hv]
      exact ⟨_, rfl⟩
    · rw [if_neg hp]
      exact ⟨_, rfl⟩
  obtain ⟨fevs, hf⟩ := hfin
  refine ⟨?_, rfl, rfl⟩
  unfold run
  rw [hs, hf]
  simp

/-- Witness for C10: the synthetic leader run satisfies all three
non-emptiness preconditions and indeed completes. -/
theorem run_no_crash_witness :
    run synthArgs 0 synthInput ≠ none ∧ pyMean [] = none ∧ drainEval [] = none :=
  run_no_crash synthArgs 0 synthInput
    (fun e _ => by cases e <;> simp [synthInput, mkTrainBatch])
    (fun e _ _ _ => by
      cases e with
      | zero => simp [synthInput, synthValSeq]
      | succ k =>
        cases k with
        | zero => simp [synthInput, synthValSeq]
        | succ k2 =>
          cases k2 with
          | zero => simp [synthInput, synthValSeq]
          | succ k3 => simp [synthInput, synthValSeq])
    (fun _ => by simp [synthInput])

theorem sum_workerSeeds_enumFrom {α : Type} (N : Nat) (hN : 0 < N) (k : Nat)
    (seeds : List α) :
    (∑ i in Finset.range N,
      ((((List.enumFrom k seeds).filter (fun p => p.1 % N = i)).map Prod.snd :
        List α) : Multiset α)) = (seeds : Multiset α) := by
  induction seeds generalizing k with
  | nil => simp
  | cons a t ih =>
    have hcons : List.enumFrom k (a :: t) = (k, a) :: List.enumFrom (k + 1) t := rfl
    have hstep : ∀ i : Nat,
        ((((List.enumFrom k (a :: t)).filter (fun p => p.1 % N = i)).map Prod.snd :
          List α) : Multiset α) =
        (if k % N = i then ({a} : Multiset α) else 0) +
          ((((List.enumFrom (k + 1) t).filter (fun p => p.1 % N = i)).map Prod.snd :
            List α) : Multiset α) := by
      intro i
      rw [hcons, List.filter_cons]
      by_cases hk : k % N = i
      · rw [if_pos (by simpa using hk), if_pos hk, List.map_cons,
          ← Multiset.cons_coe, Multiset.singleton_add]
      · rw [if_neg (by simpa using hk), if_neg hk, zero_add]
    calc (∑ i in Finset.range N,
        ((((List.enumFrom k (a :: t)).filter (fun p => p.1 % N = i)).map Prod.snd :
          List α) : Multiset α))
        = ∑ i in Finset.range N, ((if k % N = i then ({a} : Multiset α) else 0) +
            ((((List.enumFrom (k + 1) t).filter (fun p => p.1 % N = i)).map
              Prod.snd : List α) : Multiset α)) := Finset.sum_congr rfl
                (fun i _ => hstep i)
      _ = (∑ i in Finset.range N, if k % N = i then ({a} : Multiset α) else 0) +
            ∑ i in Finset.range N,
              ((((List.enumFrom (k + 1) t).filter (fun p => p.1 % N = i)).map
                Prod.snd : List α) : Multiset α) := Finset.sum_add_distrib
      _ = ({a} : Multiset α) + (t : Multiset α) := by
            rw [Finset.sum_ite_eq, if_pos (Finset.mem_range.mpr (Nat.mod_lt k hN)),
              ih (k + 1)]
      _ = ((a :: t : List α) : Multiset α) := Multiset.singleton_add a _

theorem sum_workerSeeds {α : Type} (N : Nat) (hN : 0 < N) (seeds : List α) :
    (∑ i in Finset.range N, ((workerSeeds N i seeds : List α) : Multiset α)) =
      (seeds : Multiset α) :=
  sum_workerSeeds_enumFrom N hN 0 seeds

theorem coe_flatMap_range {α : Type} (N : Nat) (f : Nat → List α) :
    (((List.range N).flatMap f : List α) : Multiset α) =
      ∑ i in Finset.range N, ((f i : List α) : Multiset α) := by
  induction N with
  | zero => rfl
  | succ n ih =>
    have h1 : (List.range (n + 1)).flatMap f = (List.range n).flatMap f ++ f n := by
      rw [List.range_succ]; simp
    rw [h1, Finset.sum_range_succ, ← ih]
    rfl

/-- C3: the `use_ddp` partition contract.  For every seed sequence and
worker count N > 0: the concatenation over all N workers of their
assigned shards is a permutation of the full seed sequence; when the
seed IDs are distinct each seed appears exactly once across all
workers; and distinct workers' shards are disjoint. -/
theorem use_ddp_partition_complete {α : Type} [DecidableEq α] (N : Nat)
    (hN : 0 < N) (seeds : List α) :
    ((List.range N).flatMap (fun i => workerSeeds N i seeds)).Perm seeds ∧
    (seeds.Nodup → ∀ a, a ∈ seeds →
      ((List.range N).flatMap (fun i => workerSeeds N i seeds)).count a = 1) ∧
    (seeds.Nodup → ∀ i j, i < N → j < N → i ≠ j →
      ∀ a, a ∈ workerSeeds N i seeds → a ∉ workerSeeds N j seeds) := by
  have hsum := sum_workerSeeds N hN seeds
  have hperm : ((List.range N).flatMap (fun i => workerSeeds N i seeds)).Perm seeds := by
    rw [← Multiset.coe_eq_coe, coe_flatMap_range]
    exact hsum
  refine ⟨hperm, ?_, ?_⟩
  · intro hnd a ha
    rw [hperm.count_eq]
    exact List.count_eq_one_of_mem hnd ha
  · intro hnd i j hi hj hij a hai haj
    have hcount : Multiset.count a (seeds : Multiset α) ≤ 1 := by
      rw [Multiset.coe_count]
      exact List.nodup_iff_count_le_one.mp hnd a
    have hge : 2 ≤ Multiset.count a (seeds : Multiset α) := by
      rw [← hsum, Multiset.count_sum']
      have hsub : ({i, j} : Finset Nat) ⊆ Finset.range N := by
        intro x hx
        rcases Finset.mem_insert.mp hx with hx | hx
        · rw [hx]; exact Finset.mem_range.mpr hi
        · rw [Finset.mem_singleton.mp hx]; exact Finset.mem_range.mpr hj
      have hpair : (∑ x in ({i, j} : Finset Nat),
          Multiset.count a ((workerSeeds N x seeds : List α) : Multiset α)) =
          Multiset.count a ((workerSeeds N i seeds : List α) : Multiset α) +
          Multiset.count a ((workerSeeds N j seeds : List α) : Multiset α) :=
        Finset.sum_pair hij
      have hi1 : 1 ≤ Multiset.count a ((workerSeeds N i seeds : List α) : Multiset α) := by
        rw [Multiset.coe_count]
        exact List.count_pos_iff.mpr hai
      have hj1 : 1 ≤ Multiset.count a ((workerSeeds N j seeds : List α) : Multiset α) := by
        rw [Multiset.coe_count]
        exact List.count_pos_iff.mpr haj
      calc 2 ≤ Multiset.count a ((workerSeeds N i seeds : List α) : Multiset α) +
            Multiset.count a ((workerSeeds N j seeds : List α) : Multiset α) :=
              Nat.add_le_add hi1 hj1
        _ = ∑ x in ({i, j} : Finset Nat),
              Multiset.count a ((workerSeeds N x seeds : List α) : Multiset α) :=
              hpair.symm
        _ ≤ ∑ x in Finset.range N,
              Multiset.count a ((workerSeeds N x seeds : List α) : Multiset α) :=
              Finset.sum_le_sum_of_subset hsub
    omega

/-- Witness for C3: five seeds over two workers — the shards interleave
back to a permutation, seed 3 appears exactly once, and a seed of
worker 0 is absent from worker 1. -/
theorem use_ddp_partition_complete_witness :
    ((List.range 2).flatMap (fun i => workerSeeds 2 i [0, 1, 2, 3, 4])).Perm
      [0, 1, 2, 3, 4] ∧
    ((List.range 2).flatMap (fun i => workerSeeds 2 i [0, 1, 2, 3, 4])).count 3 = 1 ∧
    ((0 : Nat) ∈ workerSeeds 2 0 [0, 1, 2, 3, 4] →
      (0 : Nat) ∉ workerSeeds 2 1 [0, 1, 2, 3, 4]) := by
  have H := use_ddp_partition_complete 2 (by norm_num) [0, 1, 2, 3, 4]
  exact ⟨H.1, H.2.1 (by decide) 3 (by decide),
    H.2.2 (by decide) 0 1 (by decide) (by decide) (by decide) 0⟩

theorem perm_getD_cons_eraseIdx {α : Type} (l : List α) (d : α) (i : Nat)
    (hi : i < l.length) : (l.getD i d :: l.eraseIdx i).Perm l := by
  rw [List.eraseIdx_eq_take_drop_succ]
  have h2 := (@List.perm_middle _ (l.getD i d) (l.take i) (l.drop (i + 1))).symm
  refine h2.trans ?_
  have h1 : l.take i ++ l.getD i d :: l.drop (i + 1) = l := by
    rw [List.getD_eq_getElem l d hi, List.get_drop_eq_drop l i hi,
      List.take_append_drop]
  rw [h1]

theorem fisherYatesAux_perm {α : Type} (fuel : Nat) :
    ∀ (s : Nat) (l : List α), l.length ≤ fuel → (fisherYatesAux fuel s l).Perm l := by
  induction fuel with
  | zero =>
    intro s l hl
    cases l with
    | nil => exact List.Perm.refl _
    | cons a t => simp at hl
  | succ fuel ih =>
    intro s l hl
    cases l with
    | nil => exact List.Perm.refl _
    | cons a t =>
      have hi : s % (a :: t).length < (a :: t).length :=
        Nat.mod_lt _ (by simp)
      have hlen : ((a :: t).eraseIdx (s % (a :: t).length)).length ≤ fuel := by
        rw [List.length_eraseIdx, if_pos hi]
        simp only [List.length_cons] at hl ⊢
        omega
      exact ((ih (lcgNext s) _ hlen).cons _).trans
        (perm_getD_cons_eraseIdx (a :: t) a _ hi)

theorem fisherYates_perm {α : Type} (s : Nat) (l : List α) :
    (fisherYates s l).Perm l :=
  fisherYatesAux_perm l.length s l (le_refl _)

theorem chunksOfAux_flatten {α : Type} (fuel : Nat) :
    ∀ (bs : Nat) (l : List α), 0 < bs → l.length ≤ fuel →
      (chunksOfAux fuel bs l).flatten = l := by
  induction fuel with
  | zero =>
    intro bs l _ hl
    cases l with
    | nil => rfl
    | cons a t => simp at hl
  | succ fuel ih =>
    intro bs l hbs hl
    cases l with
    | nil => rfl
    | cons a t =>
      have hbs0 : ¬bs = 0 := Nat.pos_iff_ne_zero.mp hbs
      show (if bs = 0 then [a :: t]
        else (a :: t).take bs :: chunksOfAux fuel bs ((a :: t).drop bs)).flatten =
          a :: t
      rw [if_neg hbs0, List.flatten_cons, ih bs _ hbs (by
        simp only [List.length_drop, List.length_cons]
        simp only [List.length_cons] at hl
        omega), List.take_append_drop]

theorem chunksOf_flatten {α : Type} (bs : Nat) (l : List α) (hbs : 0 < bs) :
    (chunksOf bs l).flatten = l :=
  chunksOfAux_flatten l.length bs l hbs (le_refl _)

theorem chunksOfAux_mem {α : Type} (fuel : Nat) :
    ∀ (bs : Nat) (l c : List α), 0 < bs → l.length ≤ fuel →
      c ∈ chunksOfAux fuel bs l → c ≠ [] ∧ c.length ≤ bs := by
  induction fuel with
  | zero =>
    intro bs l c _ hl hc
    cases l with
    | nil => cases hc
    | cons a t => simp at hl
  | succ fuel ih =>
    intro bs l c hbs hl hc
    cases l with
    | nil => cases hc
    | cons a t =>
      have hbs0 : ¬bs = 0 := Nat.pos_iff_ne_zero.mp hbs
      rw [show chunksOfAux (fuel + 1) bs (a :: t) =
        (if bs = 0 then [a :: t]
          else (a :: t).take bs :: chunksOfAux fuel bs ((a :: t).drop bs)) from rfl,
        if_neg hbs0] at hc
      rcases List.mem_cons.mp hc with hhd | htl
      · subst hhd
        constructor
        · intro hnil
          rcases List.take_eq_nil_iff.mp hnil with h0 | h0
          · exact hbs0 h0
          · simp at h0
        · rw [List.length_take]
          exact min_le_left _ _
      · exact ih bs _ c hbs (by
          simp only [List.length_drop, List.length_cons]
          simp only [List.length_cons] at hl
          omega) htl

theorem chunksOf_mem {α : Type} (bs : Nat) (l c : List α) (hbs : 0 < bs)
    (hc : c ∈ chunksOf bs l) : c ≠ [] ∧ c.length ≤ bs :=
  chunksOfAux_mem l.length bs l c hbs (le_refl _) hc

/-- C7: validation/test traversals are identical across repetitions
(the traversal index is ignored); every pipeline keeps its short final
batch — flattening the batches gives back the traversed sequence in
full; the train pipeline's per-epoch order is a permutation of the
shard, deterministic in (seed, epoch), and differs between epochs 0 and
1 on a concrete 7-seed shard. -/
theorem pipeline_determinism_and_shuffle {α : Type} (bs : Nat) (hbs : 0 < bs)
    (seed : Nat) (shard : List α) (t1 t2 e : Nat) :
    evalPipeline bs shard t1 = evalPipeline bs shard t2 ∧
    (evalPipeline bs shard t1).flatten = shard ∧
    (trainPipeline seed bs shard e).flatten = fisherYates (epochSeed seed e) shard ∧
    (fisherYates (epochSeed seed e) shard).Perm shard ∧
    (∀ c, c ∈ evalPipeline bs shard t1 → c ≠ [] ∧ c.length ≤ bs) ∧
    (∀ c, c ∈ trainPipeline seed bs shard e → c ≠ [] ∧ c.length ≤ bs) ∧
    trainPipeline 0 3 [0, 1, 2, 3, 4, 5, 6] 0 ≠
      trainPipeline 0 3 [0, 1, 2, 3, 4, 5, 6] 1 := by
  refine ⟨rfl, chunksOf_flatten bs shard hbs, chunksOf_flatten bs _ hbs,
    fisherYates_perm _ shard, ?_, ?_, by decide⟩
  · exact fun c hc => chunksOf_mem bs shard c hbs hc
  · exact fun c hc => chunksOf_mem bs _ c hbs hc

/-- Witness for C7: batch size 3 over the shard [0..6], traversals 0/1,
epoch 0; the first evaluation batch [0,1,2] and the first epoch-0 train
batch [4,5,0] are non-empty with at most 3 elements. -/
theorem pipeline_determinism_and_shuffle_witness :
    evalPipeline 3 [0, 1, 2, 3, 4, 5, 6] 0 = evalPipeline 3 [0, 1, 2, 3, 4, 5, 6] 1 ∧
    (evalPipeline 3 [0, 1, 2, 3, 4, 5, 6] 0).flatten = [0, 1, 2, 3, 4, 5, 6] ∧
    (trainPipeline 0 3 [0, 1, 2, 3, 4, 5, 6] 0).flatten =
      fisherYates (epochSeed 0 0) [0, 1, 2, 3, 4, 5, 6] ∧
    (fisherYates (epochSeed 0 0) [0, 1, 2, 3, 4, 5, 6]).Perm [0, 1, 2, 3, 4, 5, 6] ∧
    (([0, 1, 2] : List Nat) ≠ [] ∧ ([0, 1, 2] : List Nat).length ≤ 3) ∧
    (([4, 5, 0] : List Nat) ≠ [] ∧ ([4, 5, 0] : List Nat).length ≤ 3) ∧
    trainPipeline 0 3 [0, 1, 2, 3, 4, 5, 6] 0 ≠
      trainPipeline 0 3 [0, 1, 2, 3, 4, 5, 6] 1 := by
  have H := pipeline_determinism_and_shuffle 3 (by norm_num) 0
    [0, 1, 2, 3, 4, 5, 6] 0 1 0
  exact ⟨H.1, H.2.1, H.2.2.1, H.2.2.2.1,
    H.2.2.2.2.1 [0, 1, 2] (by decide),
    H.2.2.2.2.2.1 [4, 5, 0] (by decide),
    H.2.2.2.2.2.2⟩

/-- C8 — counterexample.  In the toy scenario (70 train seeds for the
predict category, batch size 10, 2 workers, even partition,
drop_last=False) the total number of train minibatches across the two
workers is 8 — each worker holds 35 seeds and produces ceil(35/10) = 4
batches — not ceil(70/10) = 7 as the claim states. -/
theorem toy_seven_batches_counterexample :
    toyTrainBatchTotal = 8 ∧ ¬toyTrainBatchTotal = 7 := by decide

/-- C8 (amended): the toy run completes and produces exactly 8 train
minibatches in total for the target category (ceil(35/10) = 4 per
worker under the even 2-way partition of the 70 train seeds), and the
leader emits exactly one validation-accuracy line and one final
test-accuracy line. -/
theorem toy_scenario_amended :
    toyTrainBatchTotal = 8 ∧
    (trainPipeline 0 10 (workerSeeds 2 0 (List.range 70)) 0).length = 4 ∧
    (trainPipeline 0 10 (workerSeeds 2 1 (List.range 70)) 0).length = 4 ∧
    logLineCount (run toyArgs 0 toyInput) = 1 ∧
    testLineCount (run toyArgs 0 toyInput) = 1 := by
  refine ⟨by decide, by decide, by decide, ?_, ?_⟩ <;>
  · simp only [run, runLoop, epochStep, epochBody, leaderEval, evalUpdate, drainEval,
      finalPhase, toyArgs, toyInput, mkEvalBatch, mkTrainBatch, accuracy_score,
      matchCount, argmaxIdx, argmaxFrom, List.replicate, pyMean, batchAcc, schedStep,
      initState, List.range_succ, List.foldl_append, List.foldl_cons, List.foldl_nil,
      List.map_cons, List.map_nil, List.sum_cons, List.sum_nil, List.flatten,
      List.append_nil, List.nil_append, List.length_cons, List.length_nil,
      List.isEmpty, logLineCount, testLineCount, runTrace, isLogLine, isTestLine,
      List.filter_cons, List.filter_nil]
    norm_num [List.filter_cons, List.filter_nil, isLogLine, isTestLine]

end IGB
